import Mathlib

/-!
Verification of the llm_convo conversation-analysis scripts (`parse.py`,
`parse3.py`) against their natural-language specification.

The scripts are embedded shallowly:
* parsed JSON data is modelled by the inductive type `JVal` (a `JVal.obj`
  stands for a parsed Python `dict`: unique keys in insertion order);
* Python's `dict.get` — which raises `AttributeError` on a non-dict
  receiver — is modelled by `pyGet` returning `Except`;
* Python strings are processed as `List Char` with structural-recursive
  helpers mirroring `str.split`, `str.strip`, `str.lower` and the regex
  operations actually used, so that every definition evaluates by `decide`;
* the scikit-learn collaborators (`CountVectorizer`, `TfidfVectorizer`,
  `cosine_similarity`, `LatentDirichletAllocation`) are modelled from their
  documented behaviour: tokenisation, vocabulary construction and count
  matrices are modelled concretely; floating-point cosine comparison is
  rendered in exact arithmetic (`simExceeds`) and proved equivalent to the
  real-number cosine; LDA inference itself is an abstract deterministic
  function parameter `ldaFit` (seed, number of topics, document-term
  matrix) since it is library code outside this repository.
-/

set_option maxHeartbeats 1000000

/-- A parsed JSON value.  `obj` carries the parsed dict's key/value pairs,
unique keys in insertion order, so `obj.values()` is the list of second
components in order. -/
inductive JVal where
  | null : JVal
  | bool (b : Bool) : JVal
  | num (n : Int) : JVal
  | str (s : String) : JVal
  | arr (xs : List JVal) : JVal
  | obj (fields : List (String × JVal)) : JVal

/-- Is this value a Python dict? -/
def JVal.isObj : JVal → Bool
  | .obj _ => true
  | _ => false

/-- Is this value a Python string? (`isinstance(v, str)`) -/
def JVal.isStr : JVal → Bool
  | .str _ => true
  | _ => false

/-- Python truthiness of a JSON value. -/
def pyTruthy : JVal → Bool
  | .null => false
  | .bool b => b
  | .num n => n != 0
  | .str s => !s.data.isEmpty
  | .arr xs => !xs.isEmpty
  | .obj fields => !fields.isEmpty

/-- Value of the first field with the given key, if any. -/
def lookupField (fields : List (String × JVal)) (key : String) : Option JVal :=
  fields.lookup key

/-- Python `v.get(key, default)`: on a dict, the stored value or the
default; on anything else the attribute access raises. -/
def pyGet (v : JVal) (key : String) (default : JVal) : Except String JVal :=
  match v with
  | .obj fields => .ok ((lookupField fields key).getD default)
  | _ => .error "AttributeError"

/-- Python `v.values()`: insertion-ordered values of a dict; raises on a
non-dict. -/
def pyValues (v : JVal) : Except String (List JVal) :=
  match v with
  | .obj fields => .ok (fields.map Prod.snd)
  | _ => .error "AttributeError"

/-- Python `v == 'user'` for a JSON value: true exactly on the string. -/
def isUserRole (v : JVal) : Bool :=
  match v with
  | .str s => s == "user"
  | _ => false

/-- Body of the node loop of `extract_user_messages` (both `parse.py`
line 18 and `parse3.py` line 21): reads `message`, checks truthiness and
`author.role == 'user'`, then takes `content.parts[0]` when `parts` is a
non-empty list. -/
def extractFromNode (node : JVal) : Except String (Option JVal) := do
  let message ← pyGet node "message" JVal.null
  if pyTruthy message then
    let author ← pyGet message "author" (JVal.obj [])
    let role ← pyGet author "role" JVal.null
    if isUserRole role then
      let content ← pyGet message "content" (JVal.obj [])
      let contentParts ← pyGet content "parts" (JVal.arr [])
      match contentParts with
      | .arr (p :: _) => return some p
      | _ => return none
    else
      return none
  else
    return none

/-- The inner loop `for node in mapping.values()`, accumulating extracted
parts in node order. -/
def extractNodes : List JVal → Except String (List JVal)
  | [] => .ok []
  | node :: rest => do
    let c ← extractFromNode node
    let tail ← extractNodes rest
    match c with
    | some p => .ok (p :: tail)
    | none => .ok tail

/-- `extract_user_messages` (`parse.py` lines 14-24, `parse3.py` lines
17-27): for each conversation, read `mapping` (default `{}`), iterate its
values, and collect the contributed first content parts in order. -/
def extract_user_messages : List JVal → Except String (List JVal)
  | [] => .ok []
  | conversation :: rest => do
    let mapping ← pyGet conversation "mapping" (JVal.obj [])
    let nodes ← pyValues mapping
    let here ← extractNodes nodes
    let tail ← extract_user_messages rest
    .ok (here ++ tail)

/-- Specification-side contribution of a single node, written from the
spec's words: a node contributes `content.parts[0]` exactly when it holds
a message whose author role is `"user"` and whose `parts` is a non-empty
list; a node with missing fields contributes nothing. -/
def nodeContribution (node : JVal) : Option JVal :=
  match node with
  | .obj fields =>
    match lookupField fields "message" with
    | some (.obj mfields) =>
      match lookupField mfields "author" with
      | some (.obj afields) =>
        match lookupField afields "role" with
        | some role =>
          if isUserRole role then
            match lookupField mfields "content" with
            | some (.obj cfields) =>
              match lookupField cfields "parts" with
              | some (.arr (p :: _)) => some p
              | _ => none
            | _ => none
          else none
        | none => none
      | _ => none
    | _ => none
  | _ => none

/-- Specification-side node list of one conversation: the values of its
`mapping` in insertion order. -/
def conversationNodes (c : JVal) : List JVal :=
  match c with
  | .obj fields =>
    match lookupField fields "mapping" with
    | some (.obj ms) => ms.map Prod.snd
    | _ => []
  | _ => []

/-- Specification-side extractor: conversations in input order, nodes in
mapping insertion order, each contributing via `nodeContribution`. -/
def extractSpec (conversations : List JVal) : List JVal :=
  conversations.flatMap (fun c => (conversationNodes c).filterMap nodeContribution)

/-- Shape condition on one node under which every field access in the
extractor is a genuine dict access: fields may be absent, but a present
truthy `message` is a dict whose `author` and `content` fields, when
present, are dicts.  (`parts` and `role` may hold anything.) -/
def wfNode (node : JVal) : Bool :=
  match node with
  | .obj fields =>
    match lookupField fields "message" with
    | some m =>
      !pyTruthy m ||
      (match m with
       | .obj mfields =>
         (match lookupField mfields "author" with
          | some a => a.isObj
          | none => true) &&
         (match lookupField mfields "content" with
          | some c => c.isObj
          | none => true)
       | _ => false)
    | none => true
  | _ => false

/-- Shape condition on one conversation: a dict whose `mapping`, when
present, is a dict all of whose node values satisfy `wfNode`. -/
def wfConversation (c : JVal) : Bool :=
  match c with
  | .obj fields =>
    match lookupField fields "mapping" with
    | some (.obj ms) => (ms.map Prod.snd).all wfNode
    | some _ => false
    | none => true
  | _ => false

/-! ### Python / library string primitives, modelled structurally -/

/-- Python `str` whitespace (the ASCII part relevant here). -/
def pyIsSpace (c : Char) : Bool :=
  c == ' ' || c == '\t' || c == '\n' || c == '\r' || c == '\x0b' || c == '\x0c'

/-- Maximal runs of characters satisfying `keep`, left to right
(accumulator holds the current run reversed). -/
def runsAux (keep : Char → Bool) : List Char → List Char → List (List Char)
  | [], acc => if acc.isEmpty then [] else [acc.reverse]
  | c :: cs, acc =>
    if keep c then runsAux keep cs (c :: acc)
    else if acc.isEmpty then runsAux keep cs []
    else acc.reverse :: runsAux keep cs []

/-- Maximal runs of characters satisfying `keep`. -/
def runsOf (keep : Char → Bool) (l : List Char) : List (List Char) :=
  runsAux keep l []

/-- Python `s.split()` (no argument): whitespace-delimited words, no
empties. -/
def pySplit (s : String) : List String :=
  (runsOf (fun c => !pyIsSpace c) s.data).map String.mk

/-- Python `s.lower()` (ASCII case folding, as exercised here). -/
def pyLower (s : String) : String :=
  String.mk (s.data.map Char.toLower)

/-- Python `s.strip()`: drop whitespace from both ends. -/
def pyStrip (s : String) : String :=
  String.mk (((s.data.dropWhile pyIsSpace).reverse.dropWhile pyIsSpace).reverse)

/-- Does the trimmed message end in a question mark
(`msg.strip().endswith('?')`)? -/
def endsInQuestionMark (s : String) : Bool :=
  (pyStrip s).data.getLast? == some '?'

/-- The string Python values in order (`isinstance(message, str)` filter
used by every analysis). -/
def strMessages (messages : List JVal) : List String :=
  messages.filterMap (fun v => match v with | .str s => some s | _ => none)

/-! ### Counter and `most_common` -/

/-- First occurrences of each element, in first-encounter order
(insertion order of `collections.Counter` keys); `seen` accumulates the
keys already produced. -/
def dedupAux : List String → List String → List String
  | [], _ => []
  | a :: as, seen =>
    if seen.contains a then dedupAux as seen else a :: dedupAux as (a :: seen)

/-- Keys of a list in first-encounter order. -/
def dedupFirst (l : List String) : List String :=
  dedupAux l []

/-- `Counter(words).items()`: (key, count) pairs, keys in first-encounter
order. -/
def counterItems (l : List String) : List (String × ℕ) :=
  (dedupFirst l).map (fun w => (w, l.count w))

/-- Count-descending order on counter items, used by `most_common`:
`a` may precede `b` when `b`'s count is no larger. -/
def cntGe (a b : String × ℕ) : Prop := b.2 ≤ a.2

instance : DecidableRel cntGe := fun a b => inferInstanceAs (Decidable (b.2 ≤ a.2))

instance : IsTotal (String × ℕ) cntGe := ⟨fun a b => Nat.le_total b.2 a.2⟩

instance : IsTrans (String × ℕ) cntGe := ⟨fun _ _ _ h1 h2 => Nat.le_trans h2 h1⟩

/-- `Counter(words).most_common(n)`: items stably sorted by descending
count (ties keep first-encounter order), first `n` kept. -/
def most_common (l : List String) (n : ℕ) : List (String × ℕ) :=
  (List.insertionSort cntGe (counterItems l)).take n

/-! ### `parse3.py` lexical normaliser and frequency analysis -/

/-- The fixed 100-word stoplist `top_english_words` (`parse.py` lines
27-36, `parse3.py` lines 30-39). -/
def top_english_words : List String := [
  "the", "be", "to", "of", "and", "a", "in", "that", "have", "I", "it", "for", "not", "on", "with", "he",
  "as", "you", "do", "at", "this", "but", "his", "by", "from", "they", "we", "say", "her", "she", "or",
  "an", "will", "my", "one", "all", "would", "there", "their", "what", "so", "up", "out", "if", "about",
  "who", "get", "which", "go", "me", "when", "make", "can", "like", "time", "no", "just", "him", "know",
  "take", "people", "into", "year", "your", "good", "some", "could", "them", "see", "other", "than",
  "then", "now", "look", "only", "come", "its", "over", "think", "also", "back", "after", "use", "two",
  "how", "our", "work", "first", "well", "way", "even", "new", "want", "because", "any", "these",
  "give", "day", "most", "us"]

/-- `re.sub(r'[^a-zA-Z]', '', word).lower()`: keep ASCII letters, then
lowercase. -/
def cleanWord (w : String) : String :=
  String.mk ((w.data.filter Char.isAlpha).map Char.toLower)

/-- `clean_and_filter_words` (`parse3.py` lines 42-50): clean each word,
keep it when longer than one character and not in the stoplist. -/
def clean_and_filter_words (words : List String) : List String :=
  words.filterMap (fun word =>
    let clean_word := cleanWord word
    if 1 < clean_word.length ∧ ¬ top_english_words.contains clean_word
    then some clean_word else none)

/-- Result record of `common_words_analysis` in `parse3.py`. -/
structure CommonWordsResult where
  common_words : List (String × ℕ)
deriving DecidableEq

/-- `common_words_analysis` (`parse3.py` lines 53-58): whitespace-split
words of the string messages (no case folding), optionally cleaned and
filtered, then `Counter(words).most_common(top_n)`. -/
def common_words_analysis (messages : List JVal) (top_n : ℕ)
    (filter_english : Bool) : CommonWordsResult :=
  let words := (strMessages messages).flatMap pySplit
  let words := if filter_english then clean_and_filter_words words else words
  ⟨most_common words top_n⟩

/-- `common_words_analysis` (`parse.py` lines 43-48), the legacy variant:
words come from `message.lower().split()`, filtering only removes
stoplist members, and the computed pair list is printed; the model
returns that list. -/
def common_words_analysis_py (messages : List JVal) (top_n : ℕ)
    (filter_english : Bool) : List (String × ℕ) :=
  let words := (strMessages messages).flatMap (fun m => pySplit (pyLower m))
  let words := if filter_english
    then words.filter (fun w => !top_english_words.contains w) else words
  most_common words top_n

/-! ### CountVectorizer, cosine similarity, question rephrasing -/

/-- A regex `\w` word character, over the ASCII range exercised here. -/
def isWordChar (c : Char) : Bool := c.isAlphanum || c == '_'

/-- scikit-learn's default analyzer (as used by both `CountVectorizer()`
and `TfidfVectorizer(lowercase=True)`): lowercase the document, take the
maximal `\w` runs of length at least 2 (`token_pattern=r"(?u)\b\w\w+\b"`). -/
def cvTokenize (s : String) : List String :=
  ((runsOf isWordChar (s.data.map Char.toLower)).filter
    (fun r => 2 ≤ r.length)).map String.mk

/-- Byte-wise lexicographic order on strings (Python `sorted` on `str`),
used for scikit-learn's alphabetically sorted vocabulary. -/
def lexLeChars : List Char → List Char → Bool
  | [], _ => true
  | _ :: _, [] => false
  | a :: as, b :: bs =>
    if a.val < b.val then true
    else if b.val < a.val then false
    else lexLeChars as bs

/-- Alphabetic order on strings. -/
def strLe (a b : String) : Prop := lexLeChars a.data b.data = true

instance : DecidableRel strLe := fun a b =>
  inferInstanceAs (Decidable (lexLeChars a.data b.data = true))

/-- The fitted `CountVectorizer` vocabulary: the distinct tokens of the
documents, sorted alphabetically (empty when the documents have no
token, in which case `fit_transform` raises). -/
def cvVocab (docs : List String) : List String :=
  List.insertionSort strLe (dedupFirst (docs.flatMap cvTokenize))

/-- One row of the count matrix: occurrences of each vocabulary term in
the document. -/
def countRow (vocab : List String) (doc : String) : List ℕ :=
  vocab.map (fun w => (cvTokenize doc).count w)

/-- Dot product of two count vectors. -/
def dotNat : List ℕ → List ℕ → ℕ
  | a :: as, b :: bs => a * b + dotNat as bs
  | _, _ => 0

/-- Exact-arithmetic rendition of `cosine_similarity(X)[i, j] >
threshold` for non-negative integer vectors: for a negative threshold it
always holds (cosine is non-negative, and 0 for a zero vector); otherwise
`dot / (sqrt (u·u) * sqrt (v·v)) > t` is equivalent to the squared integer
comparison below (with `t = t.num / t.den`). -/
def simExceeds (t : ℚ) (u v : List ℕ) : Bool :=
  if t.num < 0 then true
  else
    decide (t.num * t.num * (dotNat u u * dotNat v v : Int) <
      (dotNat u v * dotNat u v : Int) * ((t.den : Int) * (t.den : Int)))

/-- The real-number cosine similarity of two count vectors (0 when a
vector is zero, matching `sklearn.metrics.pairwise.cosine_similarity`,
which leaves zero rows unnormalised). -/
noncomputable def cosSim (u v : List ℕ) : ℝ :=
  (dotNat u v : ℝ) / (Real.sqrt (dotNat u u) * Real.sqrt (dotNat v v))

/-- The interrogative messages: strings whose stripped text ends in `?`
(`parse3.py` line 79, `parse.py` line 63). -/
def questionsOf (messages : List JVal) : List String :=
  messages.filterMap (fun v =>
    match v with
    | .str s => if endsInQuestionMark s then some s else none
    | _ => none)

/-- The pair list
`[(questions[i], questions[j]) for i in range(n) for j in range(i+1, n)
  if similarity_matrix[i, j] > similarity_threshold]`,
with the float comparison rendered exactly by `simExceeds`. -/
def simPairs (questions : List String) (t : ℚ) : List (String × String) :=
  let rows := questions.map (countRow (cvVocab questions))
  (List.range questions.length).flatMap (fun i =>
    (List.range questions.length).filterMap (fun j =>
      if i < j ∧ simExceeds t (rows.getD i []) (rows.getD j [])
      then some (questions.getD i "", questions.getD j "") else none))

/-- Specification-side pair list: same row-major enumeration, pairs kept
exactly when the real-number cosine similarity strictly exceeds the
threshold. -/
noncomputable def simPairsSpec (questions : List String) (t : ℚ) :
    List (String × String) :=
  let rows := questions.map (countRow (cvVocab questions))
  (List.range questions.length).flatMap (fun i =>
    (List.range questions.length).filterMap (fun j =>
      if i < j ∧ (t : ℝ) < cosSim (rows.getD i []) (rows.getD j [])
      then some (questions.getD i "", questions.getD j "") else none))

/-- Result record of `question_rephrasing_analysis` in `parse3.py`. -/
structure SimilarQuestionsResult where
  similar_questions : List (String × String)
deriving DecidableEq

/-- `question_rephrasing_analysis` (`parse3.py` lines 78-83, `parse.py`
lines 62-67): filter the interrogative messages, fit a `CountVectorizer`
(which raises `ValueError: empty vocabulary` when the questions yield no
token, in particular when there is no question at all), compute pairwise
cosine similarities, and return the first 5 above-threshold pairs in
row-major order. -/
def question_rephrasing_analysis (messages : List JVal) (t : ℚ) :
    Except String SimilarQuestionsResult :=
  let questions := questionsOf messages
  if cvVocab questions = [] then .error "ValueError: empty vocabulary"
  else .ok ⟨(simPairs questions t).take 5⟩

/-! ### TfidfVectorizer vocabulary and topic modelling -/

/-- scikit-learn's built-in English stop word list
(`sklearn.feature_extraction.text.ENGLISH_STOP_WORDS`), applied by
`TfidfVectorizer(stop_words='english')` after tokenisation. -/
def sklearn_stop_words : List String := [
  "a", "about", "above", "across", "after", "afterwards", "again", "against",
  "all", "almost", "alone", "along", "already", "also", "although", "always",
  "am", "among", "amongst", "amoungst", "amount", "an", "and", "another",
  "any", "anyhow", "anyone", "anything", "anyway", "anywhere", "are",
  "around", "as", "at", "back", "be", "became", "because", "become",
  "becomes", "becoming", "been", "before", "beforehand", "behind", "being",
  "below", "beside", "besides", "between", "beyond", "bill", "both",
  "bottom", "but", "by", "call", "can", "cannot", "cant", "co", "con",
  "could", "couldnt", "cry", "de", "describe", "detail", "do", "done",
  "down", "due", "during", "each", "eg", "eight", "either", "eleven",
  "else", "elsewhere", "empty", "enough", "etc", "even", "ever", "every",
  "everyone", "everything", "everywhere", "except", "few", "fifteen",
  "fifty", "fill", "find", "fire", "first", "five", "for", "former",
  "formerly", "forty", "found", "four", "from", "front", "full", "further",
  "get", "give", "go", "had", "has", "hasnt", "have", "he", "hence", "her",
  "here", "hereafter", "hereby", "herein", "hereupon", "hers", "herself",
  "him", "himself", "his", "how", "however", "hundred", "i", "ie", "if",
  "in", "inc", "indeed", "interest", "into", "is", "it", "its", "itself",
  "keep", "last", "latter", "latterly", "least", "less", "ltd", "made",
  "many", "may", "me", "meanwhile", "might", "mill", "mine", "more",
  "moreover", "most", "mostly", "move", "much", "must", "my", "myself",
  "name", "namely", "neither", "never", "nevertheless", "next", "nine",
  "no", "nobody", "none", "noone", "nor", "not", "nothing", "now",
  "nowhere", "of", "off", "often", "on", "once", "one", "only", "onto",
  "or", "other", "others", "otherwise", "our", "ours", "ourselves", "out",
  "over", "own", "part", "per", "perhaps", "please", "put", "rather", "re",
  "same", "see", "seem", "seemed", "seeming", "seems", "serious", "several",
  "she", "should", "show", "side", "since", "sincere", "six", "sixty",
  "so", "some", "somehow", "someone", "something", "sometime", "sometimes",
  "somewhere", "still", "such", "system", "take", "ten", "than", "that",
  "the", "their", "them", "themselves", "then", "thence", "there",
  "thereafter", "thereby", "therefore", "therein", "thereupon", "these",
  "they", "thick", "thin", "third", "this", "those", "though", "three",
  "through", "throughout", "thru", "thus", "to", "together", "too", "top",
  "toward", "towards", "twelve", "twenty", "two", "un", "under", "until",
  "up", "upon", "us", "very", "via", "was", "we", "well", "were", "what",
  "whatever", "when", "whence", "whenever", "where", "whereafter",
  "whereas", "whereby", "wherein", "whereupon", "wherever", "whether",
  "which", "while", "whither", "who", "whoever", "whole", "whom", "whose",
  "why", "will", "with", "within", "without", "would", "yet", "you",
  "your", "yours", "yourself", "yourselves"]

/-- Corpus-frequency-descending order on terms (alphabetic tie-break),
used by `max_features` selection. -/
def freqDesc (toks : List String) (a b : String) : Prop :=
  toks.count b < toks.count a ∨ (toks.count a = toks.count b ∧ strLe a b)

instance (toks : List String) : DecidableRel (freqDesc toks) := fun a b =>
  inferInstanceAs (Decidable (_ ∨ _))

/-- The fitted `TfidfVectorizer(max_features=1000, stop_words='english',
lowercase=True)` vocabulary: distinct non-stop tokens sorted
alphabetically; when more than 1000 remain, the 1000 most frequent are
kept (ties alphabetical) before the final alphabetical sort. -/
def tfidfVocab (docs : List String) : List String :=
  let toks := (docs.flatMap cvTokenize).filter
    (fun w => !sklearn_stop_words.contains w)
  let terms := List.insertionSort strLe (dedupFirst toks)
  if terms.length ≤ 1000 then terms
  else List.insertionSort strLe
    ((List.insertionSort (freqDesc toks) terms).take 1000)

/-- Weight-ascending order on vocabulary indices with index tie-break:
the stable ascending `numpy.argsort` of a topic's term weights. -/
def wAsc (w : List ℚ) (i j : ℕ) : Prop :=
  w.getD i 0 < w.getD j 0 ∨ (w.getD i 0 = w.getD j 0 ∧ i ≤ j)

instance (w : List ℚ) : DecidableRel (wAsc w) := fun _ _ =>
  inferInstanceAs (Decidable (_ ∨ _))

/-- `topic.argsort()`: vocabulary indices by ascending weight.  numpy's
default argsort (quicksort) leaves the order of exactly tied weights
unspecified; this model determinises it as a stable sort (ties in
ascending index order), which coincides with numpy's behaviour on small
arrays (insertion sort).  Universal theorems below assert only
tie-order-independent properties of the result; the tie order itself is
relied on only in concrete small-array evaluations. -/
def argsortAsc (w : List ℚ) : List ℕ :=
  List.insertionSort (wAsc w) (List.range w.length)

/-- `[words[i] for i in topic.argsort()[:-top_words-1:-1]]`: the last
`top_words` indices of the ascending argsort, reversed. -/
def topTermsList (vocab : List String) (topic : List ℚ) (top_words : ℕ) :
    List String :=
  ((argsortAsc topic).reverse.take top_words).map (fun i => vocab.getD i "")

/-- The vocabulary indices one topic emits: the last `top_words` entries
of the ascending argsort, reversed. -/
def topIdx (topic : List ℚ) (top_words : ℕ) : List ℕ :=
  (argsortAsc topic).reverse.take top_words

/-- `topic_modeling_analysis` (`parse3.py` lines 65-75): fit the TF-IDF
vectorizer (raising on an empty vocabulary), run the seeded LDA inference
— modelled by the abstract deterministic function `ldaFit`, applied to
the fixed seed `42` (`random_state=42`), the requested number of topics
and the document-term matrix — and list each topic's top terms. -/
def topic_modeling_analysis (ldaFit : ℕ → ℕ → List (List ℕ) → List (List ℚ))
    (messages : List JVal) (num_topics top_words : ℕ) :
    Except String (List (String × List String)) :=
  let docs := strMessages messages
  let vocab := tfidfVocab docs
  if vocab = [] then .error "ValueError: empty vocabulary"
  else
    let matrix := docs.map (countRow vocab)
    let components := ldaFit 42 num_topics matrix
    .ok (components.enum.map (fun p =>
      ("Topic " ++ Nat.repr p.1, topTermsList vocab p.2 top_words)))

/-- Weight-descending order with descending index tie-break: the reverse
of the stable ascending argsort, a proof device for reasoning about the
emitted prefix. -/
def wDesc (w : List ℚ) (i j : ℕ) : Prop :=
  w.getD j 0 < w.getD i 0 ∨ (w.getD i 0 = w.getD j 0 ∧ j ≤ i)

instance (w : List ℚ) : DecidableRel (wDesc w) := fun _ _ =>
  inferInstanceAs (Decidable (_ ∨ _))

/-- Weight-descending order with ASCENDING index tie-break: the selection
order asserted by the original claim («ties broken by vocabulary index
order»). -/
def wDescTiesAsc (w : List ℚ) (i j : ℕ) : Prop :=
  w.getD j 0 < w.getD i 0 ∨ (w.getD i 0 = w.getD j 0 ∧ i ≤ j)

instance (w : List ℚ) : DecidableRel (wDescTiesAsc w) := fun _ _ =>
  inferInstanceAs (Decidable (_ ∨ _))

/-- Top-terms selection as the original claim describes it. -/
def topTermsClaim (vocab : List String) (topic : List ℚ)
    (top_words : ℕ) : List String :=
  ((List.insertionSort (wDescTiesAsc topic) (List.range topic.length)).take
    top_words).map (fun i => vocab.getD i "")

/-! ### Concrete example inputs used by witnesses and counterexamples -/

/-- A conversation export exercising every extractor skip path: empty
node, null message, user message with two parts, assistant message, user
message with empty parts, user message with non-list parts, an empty
conversation, and a second conversation. -/
def convW : List JVal := [
  .obj [("mapping", .obj [
    ("n1", .obj []),
    ("n2", .obj [("message", .null)]),
    ("n3", .obj [("message", .obj [
      ("author", .obj [("role", .str "user")]),
      ("content", .obj [("parts", .arr [.str "hello", .str "x"])])])]),
    ("n4", .obj [("message", .obj [
      ("author", .obj [("role", .str "assistant")]),
      ("content", .obj [("parts", .arr [.str "nope"])])])]),
    ("n5", .obj [("message", .obj [
      ("author", .obj [("role", .str "user")]),
      ("content", .obj [("parts", .arr [])])])]),
    ("n6", .obj [("message", .obj [
      ("author", .obj [("role", .str "user")]),
      ("content", .obj [("parts", .str "notalist")])])])])],
  .obj [],
  .obj [("mapping", .obj [
    ("m1", .obj [("message", .obj [
      ("author", .obj [("role", .str "user")]),
      ("content", .obj [("parts", .arr [.str "again"])])])])])]]

/-- A conversation whose user message's first content part is the number
5 rather than a string. -/
def convNum : List JVal := [
  .obj [("mapping", .obj [
    ("n", .obj [("message", .obj [
      ("author", .obj [("role", .str "user")]),
      ("content", .obj [("parts", .arr [.num 5])])])])])]]

/-- The rational 9/10, written in normal form so that kernel reduction
never has to normalise a division. -/
def nineTenths : ℚ := ⟨9, 10, by decide, by decide⟩

/-- A concrete stand-in for the seeded LDA inference: one topic whose two
term weights are exactly tied. -/
def constLda : ℕ → ℕ → List (List ℕ) → List (List ℚ) := fun _ _ _ => [[1, 1]]
theorem dotNat_comm : ∀ u v : List ℕ, dotNat u v = dotNat v u
  | [], [] => rfl
  | [], _ :: _ => rfl
  | _ :: _, [] => rfl
  | a :: as, b :: bs => by
    simp only [dotNat, Nat.mul_comm a b, dotNat_comm as bs]

theorem dotNat_eq_zero_left : ∀ u v : List ℕ, dotNat u u = 0 → dotNat u v = 0
  | [], [] => fun _ => rfl
  | [], _ :: _ => fun _ => rfl
  | _ :: _, [] => fun _ => rfl
  | a :: as, b :: bs => by
    simp only [dotNat, Nat.add_eq_zero, mul_self_eq_zero]
    rintro ⟨rfl, h⟩
    exact ⟨Nat.zero_mul b, dotNat_eq_zero_left as bs h⟩

theorem cosSim_zero_left {u v : List ℕ} (h : dotNat u u = 0) : cosSim u v = 0 := by
  unfold cosSim
  rw [dotNat_eq_zero_left u v h]
  simp

theorem simExceeds_iff (t : ℚ) (u v : List ℕ) :
    simExceeds t u v = true ↔ (t : ℝ) < cosSim u v := by
  unfold simExceeds
  by_cases hneg : t.num < 0
  · have ht : t < 0 := Rat.num_neg.mp hneg
    have ht' : (t : ℝ) < 0 := by exact_mod_cast ht
    simp only [hneg, if_true, true_iff]
    refine lt_of_lt_of_le ht' ?_
    unfold cosSim
    positivity
  · have ht : 0 ≤ t := Rat.num_nonneg.mp (le_of_not_lt hneg)
    have ht' : (0 : ℝ) ≤ (t : ℝ) := by exact_mod_cast ht
    simp only [hneg, if_false, decide_eq_true_eq]
    rcases Nat.eq_zero_or_pos (dotNat u u) with ha | ha
    · rw [cosSim_zero_left ha]
      have hd : dotNat u v = 0 := dotNat_eq_zero_left u v ha
      constructor
      · intro h
        exfalso
        rw [ha, hd] at h
        simp at h
      · intro h
        exact absurd h (not_lt.mpr ht')
    · rcases Nat.eq_zero_or_pos (dotNat v v) with hb | hb
      · have hd : dotNat u v = 0 := by
          rw [dotNat_comm]; exact dotNat_eq_zero_left v u hb
        have hc : cosSim u v = 0 := by
          unfold cosSim; rw [hd]; simp
        rw [hc]
        constructor
        · intro h
          exfalso
          rw [hb, hd] at h
          simp at h
        · intro h
          exact absurd h (not_lt.mpr ht')
      · -- both norms positive
        have hsa : (0 : ℝ) < Real.sqrt (dotNat u u) := Real.sqrt_pos.mpr (by exact_mod_cast ha)
        have hsb : (0 : ℝ) < Real.sqrt (dotNat v v) := Real.sqrt_pos.mpr (by exact_mod_cast hb)
        have hprod : (0 : ℝ) < Real.sqrt (dotNat u u) * Real.sqrt (dotNat v v) :=
          mul_pos hsa hsb
        unfold cosSim
        rw [lt_div_iff₀ hprod]
        have key : (t : ℝ) * (Real.sqrt (dotNat u u) * Real.sqrt (dotNat v v)) < (dotNat u v : ℝ)
            ↔ ((t : ℝ) * (Real.sqrt (dotNat u u) * Real.sqrt (dotNat v v))) *
                ((t : ℝ) * (Real.sqrt (dotNat u u) * Real.sqrt (dotNat v v))) <
              (dotNat u v : ℝ) * (dotNat u v : ℝ) :=
          mul_self_lt_mul_self_iff (by positivity) (by positivity)
        rw [key]
        have expand : ((t : ℝ) * (Real.sqrt (dotNat u u) * Real.sqrt (dotNat v v))) *
            ((t : ℝ) * (Real.sqrt (dotNat u u) * Real.sqrt (dotNat v v)))
            = (t : ℝ) * (t : ℝ) * ((dotNat u u : ℝ) * (dotNat v v : ℝ)) := by
          have h1 : Real.sqrt (dotNat u u) * Real.sqrt (dotNat u u) = (dotNat u u : ℝ) :=
            Real.mul_self_sqrt (by positivity)
          have h2 : Real.sqrt (dotNat v v) * Real.sqrt (dotNat v v) = (dotNat v v : ℝ) :=
            Real.mul_self_sqrt (by positivity)
          calc ((t : ℝ) * (Real.sqrt (dotNat u u) * Real.sqrt (dotNat v v))) *
              ((t : ℝ) * (Real.sqrt (dotNat u u) * Real.sqrt (dotNat v v)))
              = (t : ℝ) * (t : ℝ) *
                ((Real.sqrt (dotNat u u) * Real.sqrt (dotNat u u)) *
                 (Real.sqrt (dotNat v v) * Real.sqrt (dotNat v v))) := by ring
            _ = (t : ℝ) * (t : ℝ) * ((dotNat u u : ℝ) * (dotNat v v : ℝ)) := by
                rw [h1, h2]
        rw [expand]
        -- now: t^2 * (a*b) < d^2  ↔  num^2 * (a*b) < d^2 * den^2
        have hcast : (t : ℝ) = (t.num : ℝ) / (t.den : ℝ) := by
          rw [Rat.cast_def]
        have hden : (0 : ℝ) < (t.den : ℝ) := by
          exact_mod_cast t.den_pos
        rw [hcast]
        rw [div_mul_div_comm]
        rw [div_mul_eq_mul_div]
        rw [div_lt_iff₀ (by positivity)]
        constructor
        · intro h
          exact_mod_cast h
        · intro h
          exact_mod_cast h

theorem exceptBind_ok {α β : Type} (a : α) (f : α → Except String β) :
    (Except.ok a >>= f) = f a := rfl

theorem exceptPure {α : Type} (a : α) : (pure a : Except String α) = Except.ok a := rfl

theorem lookupField_nil (k : String) : lookupField [] k = none := rfl

theorem extractFromNode_wf {node : JVal} (h : wfNode node = true) :
    extractFromNode node = .ok (nodeContribution node) := by
  cases node with
  | obj fields =>
    cases hm : lookupField fields "message" with
    | none =>
      simp [extractFromNode, exceptBind_ok, exceptPure, lookupField_nil, pyGet, hm, nodeContribution, pyTruthy]
    | some m =>
      by_cases htr : pyTruthy m = true
      · -- truthy message: well-formedness forces a dict
        cases m with
        | obj mfields =>
          cases ha : lookupField mfields "author" with
          | none =>
            simp [extractFromNode, exceptBind_ok, exceptPure, lookupField_nil, pyGet, hm, ha, htr, nodeContribution, isUserRole]
          | some a =>
            have haobj : a.isObj = true := by
              simp [wfNode, hm, htr, ha] at h
              exact h.1
            cases a with
            | obj afields =>
              cases hr : lookupField afields "role" with
              | none =>
                simp [extractFromNode, exceptBind_ok, exceptPure, lookupField_nil, pyGet, hm, ha, hr, htr, nodeContribution, isUserRole]
              | some r =>
                by_cases hu : isUserRole r = true
                · cases hc : lookupField mfields "content" with
                  | none =>
                    simp [extractFromNode, exceptBind_ok, exceptPure, lookupField_nil, pyGet, hm, ha, hr, hc, htr, hu, nodeContribution]
                  | some c =>
                    have hcobj : c.isObj = true := by
                      simp [wfNode, hm, htr, ha, hc] at h
                      exact h.2
                    cases c with
                    | obj cfields =>
                      cases hp : lookupField cfields "parts" with
                      | none =>
                        simp [extractFromNode, exceptBind_ok, exceptPure, lookupField_nil, pyGet, hm, ha, hr, hc, hp, htr, hu,
                          nodeContribution]
                      | some p =>
                        cases p with
                        | arr xs =>
                          cases xs with
                          | nil =>
                            simp [extractFromNode, exceptBind_ok, exceptPure, lookupField_nil, pyGet, hm, ha, hr, hc, hp, htr, hu,
                              nodeContribution]
                          | cons x rest =>
                            simp [extractFromNode, exceptBind_ok, exceptPure, lookupField_nil, pyGet, hm, ha, hr, hc, hp, htr, hu,
                              nodeContribution]
                        | null =>
                          simp [extractFromNode, exceptBind_ok, exceptPure, lookupField_nil, pyGet, hm, ha, hr, hc, hp, htr, hu,
                            nodeContribution]
                        | bool b =>
                          simp [extractFromNode, exceptBind_ok, exceptPure, lookupField_nil, pyGet, hm, ha, hr, hc, hp, htr, hu,
                            nodeContribution]
                        | num n =>
                          simp [extractFromNode, exceptBind_ok, exceptPure, lookupField_nil, pyGet, hm, ha, hr, hc, hp, htr, hu,
                            nodeContribution]
                        | str s =>
                          simp [extractFromNode, exceptBind_ok, exceptPure, lookupField_nil, pyGet, hm, ha, hr, hc, hp, htr, hu,
                            nodeContribution]
                        | obj ofs =>
                          simp [extractFromNode, exceptBind_ok, exceptPure, lookupField_nil, pyGet, hm, ha, hr, hc, hp, htr, hu,
                            nodeContribution]
                    | null => simp [JVal.isObj] at hcobj
                    | bool b => simp [JVal.isObj] at hcobj
                    | num n => simp [JVal.isObj] at hcobj
                    | str s => simp [JVal.isObj] at hcobj
                    | arr xs => simp [JVal.isObj] at hcobj
                · simp [extractFromNode, exceptBind_ok, exceptPure, lookupField_nil, pyGet, hm, ha, hr, htr, hu, nodeContribution]
            | null => simp [JVal.isObj] at haobj
            | bool b => simp [JVal.isObj] at haobj
            | num n => simp [JVal.isObj] at haobj
            | str s => simp [JVal.isObj] at haobj
            | arr xs => simp [JVal.isObj] at haobj
        | null => simp [pyTruthy] at htr
        | bool b =>
          simp [wfNode, hm, htr] at h
        | num n =>
          simp [wfNode, hm, htr] at h
        | str s =>
          simp [wfNode, hm, htr] at h
        | arr xs =>
          simp [wfNode, hm, htr] at h
      · -- falsy message: no contribution either way
        have hok : extractFromNode (JVal.obj fields) = .ok none := by
          simp [extractFromNode, exceptBind_ok, exceptPure, lookupField_nil, pyGet, hm, htr]
        rw [hok]
        cases m with
        | obj mfields =>
          have : mfields = [] := by
            simpa [pyTruthy, List.isEmpty_iff] using htr
          subst this
          simp [nodeContribution, hm, lookupField_nil]
        | null => simp [nodeContribution, hm]
        | bool b => simp [nodeContribution, hm]
        | num n => simp [nodeContribution, hm]
        | str s => simp [nodeContribution, hm]
        | arr xs => simp [nodeContribution, hm]
  | null => simp [wfNode] at h
  | bool b => simp [wfNode] at h
  | num n => simp [wfNode] at h
  | str s => simp [wfNode] at h
  | arr xs => simp [wfNode] at h

theorem extractNodes_wf {nodes : List JVal} (h : nodes.all wfNode = true) :
    extractNodes nodes = .ok (nodes.filterMap nodeContribution) := by
  induction nodes with
  | nil => rfl
  | cons node rest ih =>
    simp only [List.all_cons, Bool.and_eq_true] at h
    rw [List.filterMap_cons]
    show (do
      let c ← extractFromNode node
      let tail ← extractNodes rest
      match c with
      | some p => Except.ok (p :: tail)
      | none => Except.ok tail) = _
    rw [extractFromNode_wf h.1, ih h.2]
    cases hc : nodeContribution node <;> simp [hc, exceptBind_ok]

/-- C1: for every conversation collection matching the data model (each
present `message`, `author` and `content` field is a dict),
`extract_user_messages` returns — without raising — exactly the ordered
sequence of first content parts of user-authored messages: conversations
in input order, each mapping iterated in insertion order, a node
contributing `content.parts[0]` iff it holds a message with author role
"user" and a non-empty list of parts; nodes with absent message, author,
content or parts fields (or non-list or empty parts) contribute nothing. -/
theorem C1_extraction {conversations : List JVal}
    (h : conversations.all wfConversation = true) :
    extract_user_messages conversations = .ok (extractSpec conversations) := by
  induction conversations with
  | nil => rfl
  | cons conversation rest ih =>
    simp only [List.all_cons, Bool.and_eq_true] at h
    obtain ⟨hc, hrest⟩ := h
    have hstep : extract_user_messages (conversation :: rest) = (do
      let mapping ← pyGet conversation "mapping" (JVal.obj [])
      let nodes ← pyValues mapping
      let here ← extractNodes nodes
      let tail ← extract_user_messages rest
      Except.ok (here ++ tail)) := rfl
    rw [hstep, ih hrest]
    cases conversation with
    | obj fields =>
      cases hm : lookupField fields "mapping" with
      | none =>
        simp [pyGet, pyValues, hm, extractNodes, extractSpec, conversationNodes, exceptBind_ok]
      | some mp =>
        cases mp with
        | obj ms =>
          have hall : (ms.map Prod.snd).all wfNode = true := by
            simpa [wfConversation, hm] using hc
          simp only [pyGet, hm, Option.getD, pyValues, extractNodes_wf hall, exceptBind_ok]
          simp [extractSpec, conversationNodes, hm]
        | null => simp [wfConversation, hm] at hc
        | bool b => simp [wfConversation, hm] at hc
        | num n => simp [wfConversation, hm] at hc
        | str s => simp [wfConversation, hm] at hc
        | arr xs => simp [wfConversation, hm] at hc
    | null => simp [wfConversation] at hc
    | bool b => simp [wfConversation] at hc
    | num n => simp [wfConversation] at hc
    | str s => simp [wfConversation] at hc
    | arr xs => simp [wfConversation] at hc

-- perm decidable?
example : List.Perm ["cat","dog"] ["dog","cat"] := by decide

theorem mem_of_mem_dedupAux : ∀ {l seen : List String} {a : String},
    a ∈ dedupAux l seen → a ∈ l := by
  intro l
  induction l with
  | nil => intro seen a h; simp [dedupAux] at h
  | cons x xs ih =>
    intro seen a h
    by_cases hx : seen.contains x
    · simp only [dedupAux, hx, if_true] at h
      exact List.mem_cons_of_mem x (ih h)
    · simp only [dedupAux, hx, if_false] at h
      rcases List.mem_cons.mp h with rfl | h
      · exact List.mem_cons_self a xs
      · exact List.mem_cons_of_mem x (ih h)

theorem mem_dedupAux_of_mem : ∀ {l seen : List String} {a : String},
    a ∈ l → ¬ a ∈ seen → a ∈ dedupAux l seen := by
  intro l
  induction l with
  | nil => intro seen a h; simp at h
  | cons x xs ih =>
    intro seen a h hs
    by_cases hx : seen.contains x
    · simp only [dedupAux, hx, if_true]
      rcases List.mem_cons.mp h with rfl | h
      · exact absurd (by simpa using hx : a ∈ seen) hs
      · exact ih h hs
    · simp only [dedupAux, hx, if_false]
      rcases List.mem_cons.mp h with rfl | h
      · exact List.mem_cons_self a _
      · by_cases hax : a = x
        · subst hax; exact List.mem_cons_self a _
        · refine List.mem_cons_of_mem x (ih h ?_)
          simp only [List.mem_cons]
          rintro (rfl | hmem)
          · exact hax rfl
          · exact hs hmem

theorem mem_dedupFirst {l : List String} {a : String} : a ∈ dedupFirst l ↔ a ∈ l :=
  ⟨mem_of_mem_dedupAux, fun h => mem_dedupAux_of_mem h (by simp)⟩

theorem mem_counterItems_count {l : List String} {p : String × ℕ}
    (h : p ∈ counterItems l) : p.2 = l.count p.1 ∧ p.1 ∈ l := by
  obtain ⟨w, hw, rfl⟩ := List.mem_map.mp h
  exact ⟨rfl, mem_dedupFirst.mp hw⟩

theorem mem_most_common {l : List String} {n : ℕ} {p : String × ℕ}
    (h : p ∈ most_common l n) : p ∈ counterItems l :=
  (List.perm_insertionSort cntGe (counterItems l)).subset (List.mem_of_mem_take h)

theorem most_common_sorted (l : List String) (n : ℕ) :
    List.Sorted cntGe (most_common l n) :=
  (List.sorted_insertionSort cntGe (counterItems l)).sublist (List.take_sublist n _)

theorem most_common_top (l : List String) (n : ℕ) {p q : String × ℕ}
    (hp : p ∈ most_common l n)
    (hq : q ∈ (List.insertionSort cntGe (counterItems l)).drop n) : q.2 ≤ p.2 :=
  (List.sorted_insertionSort cntGe (counterItems l)).rel_of_mem_take_of_mem_drop hp hq

theorem mem_clean_and_filter {words : List String} {t : String}
    (h : t ∈ clean_and_filter_words words) :
    (∃ w ∈ words, t = cleanWord w) ∧ 1 < t.length ∧ ¬ t ∈ top_english_words := by
  obtain ⟨w, hw, hsome⟩ := List.mem_filterMap.mp h
  simp only [clean_and_filter_words] at hsome
  split_ifs at hsome with hcond
  · obtain rfl := Option.some_inj.mp hsome
    exact ⟨⟨w, hw, rfl⟩, hcond.1, by simpa using hcond.2⟩

theorem strMessages_filter (messages : List JVal) :
    strMessages (messages.filter (fun v => v.isStr)) = strMessages messages := by
  unfold strMessages
  induction messages with
  | nil => rfl
  | cons v rest ih =>
    cases v with
    | str s =>
      simp only [List.filter_cons, JVal.isStr, if_true, List.filterMap_cons]
      exact congrArg (List.cons s) ih
    | null => simpa [List.filter_cons, JVal.isStr, List.filterMap_cons] using ih
    | bool b => simpa [List.filter_cons, JVal.isStr, List.filterMap_cons] using ih
    | num n => simpa [List.filter_cons, JVal.isStr, List.filterMap_cons] using ih
    | arr xs => simpa [List.filter_cons, JVal.isStr, List.filterMap_cons] using ih
    | obj fs => simpa [List.filter_cons, JVal.isStr, List.filterMap_cons] using ih

theorem questionsOf_filter (messages : List JVal) :
    questionsOf (messages.filter (fun v => v.isStr)) = questionsOf messages := by
  unfold questionsOf
  induction messages with
  | nil => rfl
  | cons v rest ih =>
    cases v with
    | str s =>
      simp only [List.filter_cons, JVal.isStr, if_true, List.filterMap_cons]
      by_cases hq : endsInQuestionMark s = true
      · simp only [hq, if_true]
        exact congrArg (List.cons s) ih
      · simp only [hq, if_false]
        exact ih
    | null => simpa [List.filter_cons, JVal.isStr, List.filterMap_cons] using ih
    | bool b => simpa [List.filter_cons, JVal.isStr, List.filterMap_cons] using ih
    | num n => simpa [List.filter_cons, JVal.isStr, List.filterMap_cons] using ih
    | arr xs => simpa [List.filter_cons, JVal.isStr, List.filterMap_cons] using ih
    | obj fs => simpa [List.filter_cons, JVal.isStr, List.filterMap_cons] using ih

theorem simPairs_eq_spec (questions : List String) (t : ℚ) :
    simPairs questions t = simPairsSpec questions t := by
  unfold simPairs simPairsSpec
  refine List.flatMap_congr (fun i _ => ?_)
  refine List.filterMap_congr (fun j _ => ?_)
  refine if_congr (and_congr_right (fun _ => ?_)) rfl rfl
  exact ⟨fun h => (simExceeds_iff t _ _).mp h, fun h => (simExceeds_iff t _ _).mpr h⟩

theorem question_rephrasing_ok {messages : List JVal} {t : ℚ}
    {r : SimilarQuestionsResult}
    (h : question_rephrasing_analysis messages t = .ok r) :
    r.similar_questions = (simPairsSpec (questionsOf messages) t).take 5 := by
  unfold question_rephrasing_analysis at h
  simp only at h
  split_ifs at h with hv
  have hr : r = ⟨(simPairs (questionsOf messages) t).take 5⟩ :=
    (Except.ok.injEq _ _).mp h.symm
  subst hr
  simp [simPairs_eq_spec]

/-- C5 (amended): with exactly one interrogative utterance (yielding at
least one vectorizer token) the Similarity Detector returns an empty
result and does not raise; with zero interrogative utterances the
vectorizer raises an empty-vocabulary error instead (see the
counterexample). -/
theorem C5_empty_amended {messages : List JVal} {q : String} (t : ℚ)
    (hq : questionsOf messages = [q]) (hv : cvVocab [q] ≠ []) :
    question_rephrasing_analysis messages t = .ok ⟨[]⟩ := by
  unfold question_rephrasing_analysis
  rw [hq]
  rw [if_neg hv]
  have : simPairs [q] t = [] := by
    have h1 : List.range 1 = [0] := rfl
    simp [simPairs, h1]
  rw [this]
  rfl

theorem countRow_eq_of_perm {q1 q2 : String} (v : List String)
    (hperm : (cvTokenize q1).Perm (cvTokenize q2)) :
    countRow v q1 = countRow v q2 := by
  unfold countRow
  exact List.map_congr_left (fun w _ => hperm.count_eq w)

theorem dotNat_self_pos {r : List ℕ} (h : ∃ x ∈ r, 0 < x) : 0 < dotNat r r := by
  induction r with
  | nil => simp at h
  | cons a as ih =>
    obtain ⟨x, hx, hpos⟩ := h
    rcases List.mem_cons.mp hx with rfl | hx
    · have : 0 < x * x := Nat.mul_pos hpos hpos
      calc 0 < x * x := this
        _ ≤ x * x + dotNat as as := Nat.le_add_right _ _
    · have : 0 < dotNat as as := ih ⟨x, hx, hpos⟩
      calc 0 < dotNat as as := this
        _ ≤ a * a + dotNat as as := Nat.le_add_left _ _

theorem cosSim_self {r : List ℕ} (h : 0 < dotNat r r) : cosSim r r = 1 := by
  unfold cosSim
  rw [Real.mul_self_sqrt (by positivity)]
  refine div_self ?_
  exact_mod_cast Nat.pos_iff_ne_zero.mp h

theorem simPairs_pair (q1 q2 : String) (t : ℚ) :
    simPairs [q1, q2] t =
      if simExceeds t (countRow (cvVocab [q1, q2]) q1) (countRow (cvVocab [q1, q2]) q2)
      then [(q1, q2)] else [] := by
  have h2 : List.range 2 = [0, 1] := rfl
  simp only [simPairs, List.length_cons, List.length_nil, h2, List.map_cons, List.map_nil,
    List.flatMap_cons, List.flatMap_nil, List.filterMap_cons, List.filterMap_nil]
  simp only [List.getD_cons_zero, List.getD_cons_succ]
  norm_num
  split_ifs <;> rfl

/-- C4 (amended): for exactly two interrogative utterances with identical
token MULTISETS (not merely sets) containing at least one token, the
count-vector cosine similarity equals 1.0; the pair is emitted for every
threshold strictly below 1, and at `similarity_threshold = 1.0` the pair
is not emitted because the comparison is strict. -/
theorem C4_boundary_amended (q1 q2 : String) (t : ℚ)
    (h1 : endsInQuestionMark q1 = true) (h2 : endsInQuestionMark q2 = true)
    (hperm : (cvTokenize q1).Perm (cvTokenize q2)) (hne : cvTokenize q1 ≠ []) :
    cosSim (countRow (cvVocab [q1, q2]) q1) (countRow (cvVocab [q1, q2]) q2) = 1 ∧
    (t < 1 → question_rephrasing_analysis [.str q1, .str q2] t = .ok ⟨[(q1, q2)]⟩) ∧
    question_rephrasing_analysis [.str q1, .str q2] 1 = .ok ⟨[]⟩ := by
  have hqs : questionsOf [.str q1, .str q2] = [q1, q2] := by
    simp [questionsOf, h1, h2]
  have hrow : countRow (cvVocab [q1, q2]) q2 = countRow (cvVocab [q1, q2]) q1 :=
    (countRow_eq_of_perm _ hperm).symm
  -- a token of q1 is in the vocabulary
  obtain ⟨w, hw⟩ := List.exists_mem_of_ne_nil _ hne
  have hwv : w ∈ cvVocab [q1, q2] := by
    unfold cvVocab
    rw [List.mem_insertionSort, mem_dedupFirst]
    exact List.mem_flatMap.mpr ⟨q1, by simp, hw⟩
  have hv : cvVocab [q1, q2] ≠ [] := List.ne_nil_of_mem hwv
  have hdpos : 0 < dotNat (countRow (cvVocab [q1, q2]) q1) (countRow (cvVocab [q1, q2]) q1) := by
    refine dotNat_self_pos ⟨(cvTokenize q1).count w, ?_, List.count_pos_iff.mpr hw⟩
    exact List.mem_map_of_mem _ hwv
  have hcos : cosSim (countRow (cvVocab [q1, q2]) q1) (countRow (cvVocab [q1, q2]) q1) = 1 :=
    cosSim_self hdpos
  have hmain : ∀ s : ℚ, question_rephrasing_analysis [.str q1, .str q2] s =
      .ok ⟨if simExceeds s (countRow (cvVocab [q1, q2]) q1) (countRow (cvVocab [q1, q2]) q1)
           then [(q1, q2)] else []⟩ := by
    intro s
    unfold question_rephrasing_analysis
    simp only [hqs]
    rw [if_neg hv, simPairs_pair, hrow]
    split_ifs <;> rfl
  refine ⟨by rw [hrow]; exact hcos, ?_, ?_⟩
  · intro ht
    rw [hmain t]
    have hex : simExceeds t (countRow (cvVocab [q1, q2]) q1)
        (countRow (cvVocab [q1, q2]) q1) = true := by
      rw [simExceeds_iff, hcos]
      exact_mod_cast ht
    rw [hex]
    rfl
  · rw [hmain 1]
    have hex : simExceeds 1 (countRow (cvVocab [q1, q2]) q1)
        (countRow (cvVocab [q1, q2]) q1) = false := by
      rw [Bool.eq_false_iff]
      intro hcontra
      rw [simExceeds_iff, hcos] at hcontra
      exact absurd hcontra (by norm_num)
    rw [hex]
    rfl

instance (w : List ℚ) : IsTotal ℕ (wAsc w) := by
  constructor
  intro i j
  rcases lt_trichotomy (w.getD i 0) (w.getD j 0) with h | h | h
  · exact Or.inl (Or.inl h)
  · rcases Nat.le_total i j with hle | hle
    · exact Or.inl (Or.inr ⟨h, hle⟩)
    · exact Or.inr (Or.inr ⟨h.symm, hle⟩)
  · exact Or.inr (Or.inl h)

instance (w : List ℚ) : IsTrans ℕ (wAsc w) := by
  constructor
  intro i j k hij hjk
  rcases hij with h1 | ⟨e1, l1⟩
  · rcases hjk with h2 | ⟨e2, l2⟩
    · exact Or.inl (h1.trans h2)
    · exact Or.inl (e2 ▸ h1)
  · rcases hjk with h2 | ⟨e2, l2⟩
    · exact Or.inl (e1 ▸ h2)
    · exact Or.inr ⟨e1.trans e2, l1.trans l2⟩

instance (w : List ℚ) : IsTotal ℕ (wDesc w) := by
  constructor
  intro i j
  rcases lt_trichotomy (w.getD i 0) (w.getD j 0) with h | h | h
  · exact Or.inr (Or.inl h)
  · rcases Nat.le_total i j with hle | hle
    · exact Or.inr (Or.inr ⟨h.symm, hle⟩)
    · exact Or.inl (Or.inr ⟨h, hle⟩)
  · exact Or.inl (Or.inl h)

instance (w : List ℚ) : IsTrans ℕ (wDesc w) := by
  constructor
  intro i j k hij hjk
  rcases hij with h1 | ⟨e1, l1⟩
  · rcases hjk with h2 | ⟨e2, l2⟩
    · exact Or.inl (h2.trans h1)
    · exact Or.inl (e2 ▸ h1)
  · rcases hjk with h2 | ⟨e2, l2⟩
    · rw [← e1] at h2
      exact Or.inl h2
    · exact Or.inr ⟨e1.trans e2, l2.trans l1⟩

instance (w : List ℚ) : IsAntisymm ℕ (wDesc w) := by
  constructor
  intro i j hij hji
  rcases hij with h1 | ⟨e1, l1⟩
  · rcases hji with h2 | ⟨e2, l2⟩
    · exact absurd (h1.trans h2) (lt_irrefl _)
    · exact absurd h1 (e2 ▸ lt_irrefl _)
  · rcases hji with h2 | ⟨e2, l2⟩
    · rw [← e1] at h2
      exact absurd h2 (lt_irrefl _)
    · exact Nat.le_antisymm l2 l1

theorem reverse_argsortAsc (w : List ℚ) :
    (argsortAsc w).reverse = List.insertionSort (wDesc w) (List.range w.length) := by
  refine List.eq_of_perm_of_sorted (r := wDesc w) ?_ ?_ ?_
  · exact ((argsortAsc w).reverse_perm.trans (List.perm_insertionSort _ _)).trans
      (List.perm_insertionSort (wDesc w) (List.range w.length)).symm
  · show List.Pairwise (wDesc w) (argsortAsc w).reverse
    rw [List.pairwise_reverse]
    refine (List.sorted_insertionSort (wAsc w) (List.range w.length)).imp ?_
    intro i j hij
    rcases hij with h | ⟨e, l⟩
    · exact Or.inl h
    · exact Or.inr ⟨e.symm, l⟩
  · exact List.sorted_insertionSort _ _

theorem topIdx_eq (topic : List ℚ) (m : ℕ) :
    topIdx topic m
      = (List.insertionSort (wDesc topic) (List.range topic.length)).take m := by
  unfold topIdx
  rw [reverse_argsortAsc]

theorem topIdx_length (topic : List ℚ) (m : ℕ) :
    (topIdx topic m).length = min m topic.length := by
  rw [topIdx_eq, List.length_take,
    (List.perm_insertionSort (wDesc topic) (List.range topic.length)).length_eq,
    List.length_range]

theorem topIdx_nodup (topic : List ℚ) (m : ℕ) : (topIdx topic m).Nodup := by
  rw [topIdx_eq]
  refine List.Nodup.sublist (List.take_sublist m _) ?_
  exact ((List.perm_insertionSort (wDesc topic) (List.range topic.length)).nodup_iff).mpr
    (List.nodup_range _)

theorem topIdx_mem_lt (topic : List ℚ) (m : ℕ) :
    ∀ i ∈ topIdx topic m, i < topic.length := by
  intro i hi
  rw [topIdx_eq] at hi
  exact List.mem_range.mp
    ((List.perm_insertionSort (wDesc topic) (List.range topic.length)).subset
      (List.mem_of_mem_take hi))

theorem topIdx_sorted (topic : List ℚ) (m : ℕ) :
    List.Sorted (fun i j => topic.getD j 0 ≤ topic.getD i 0) (topIdx topic m) := by
  rw [topIdx_eq]
  have hs := (List.sorted_insertionSort (wDesc topic)
    (List.range topic.length)).sublist (List.take_sublist m _)
  refine hs.imp ?_
  intro i j hij
  rcases hij with h | ⟨e, _⟩
  · exact le_of_lt h
  · exact le_of_eq e.symm

theorem topIdx_top (topic : List ℚ) (m : ℕ) :
    ∀ i ∈ topIdx topic m, ∀ j < topic.length, j ∉ topIdx topic m →
      topic.getD j 0 ≤ topic.getD i 0 := by
  intro i hi j hjlt hjn
  rw [topIdx_eq] at hi hjn
  have hjs : j ∈ List.insertionSort (wDesc topic) (List.range topic.length) :=
    (List.perm_insertionSort (wDesc topic) _).mem_iff.mpr (List.mem_range.mpr hjlt)
  have hsplit : j ∈ (List.insertionSort (wDesc topic) (List.range topic.length)).take m
      ++ (List.insertionSort (wDesc topic) (List.range topic.length)).drop m := by
    rw [List.take_append_drop]
    exact hjs
  have hjd : j ∈ (List.insertionSort (wDesc topic) (List.range topic.length)).drop m := by
    rcases List.mem_append.mp hsplit with h | h
    · exact absurd h hjn
    · exact h
  have hrel := (List.sorted_insertionSort (wDesc topic)
    (List.range topic.length)).rel_of_mem_take_of_mem_drop hi hjd
  rcases hrel with h | ⟨e, _⟩
  · exact le_of_lt h
  · exact le_of_eq e.symm

/-- C7 (amended): for every corpus whose TF-IDF vocabulary is non-empty,
and any seeded inference returning `num_topics` component rows, the
analysis succeeds with exactly `num_topics` entries labelled by 0-based
topic index, and each topic's term list arises from SOME selection of
`min top_words n` distinct vocabulary indices (`n` the topic row's
length) listed in descending weight order, every selected weight at
least every unselected weight.  The order among exactly tied weights is
not asserted: the library's argsort leaves it unspecified, and the
counterexample shows it is not the ascending vocabulary index order the
original claim stated. -/
theorem C7_topics_amended (ldaFit : ℕ → ℕ → List (List ℕ) → List (List ℚ))
    (messages : List JVal) (num_topics top_words : ℕ)
    (hv : tfidfVocab (strMessages messages) ≠ [])
    (hk : (ldaFit 42 num_topics ((strMessages messages).map
      (countRow (tfidfVocab (strMessages messages))))).length = num_topics) :
    topic_modeling_analysis ldaFit messages num_topics top_words =
      .ok ((ldaFit 42 num_topics ((strMessages messages).map
        (countRow (tfidfVocab (strMessages messages))))).enum.map (fun p =>
          ("Topic " ++ Nat.repr p.1,
            topTermsList (tfidfVocab (strMessages messages)) p.2 top_words))) ∧
    ((ldaFit 42 num_topics ((strMessages messages).map
        (countRow (tfidfVocab (strMessages messages))))).enum.map (fun p =>
          ("Topic " ++ Nat.repr p.1,
            topTermsList (tfidfVocab (strMessages messages)) p.2 top_words))).length
      = num_topics ∧
    (∀ (topic : List ℚ) (m : ℕ), ∃ sel : List ℕ,
      topTermsList (tfidfVocab (strMessages messages)) topic m
        = sel.map (fun i => (tfidfVocab (strMessages messages)).getD i "") ∧
      sel.length = min m topic.length ∧
      sel.Nodup ∧
      (∀ i ∈ sel, i < topic.length) ∧
      List.Sorted (fun i j => topic.getD j 0 ≤ topic.getD i 0) sel ∧
      (∀ i ∈ sel, ∀ j < topic.length, j ∉ sel →
        topic.getD j 0 ≤ topic.getD i 0)) := by
  refine ⟨?_, ?_, ?_⟩
  · unfold topic_modeling_analysis
    simp only
    rw [if_neg hv]
  · rw [List.length_map, List.enum_length]
    exact hk
  · intro topic m
    exact ⟨topIdx topic m, rfl, topIdx_length topic m, topIdx_nodup topic m,
      topIdx_mem_lt topic m, topIdx_sorted topic m, topIdx_top topic m⟩

/-- C6: `topic_modeling_analysis` is deterministic — its result depends
only on the corpus, the parameters, and the behaviour of the seeded
inference at the fixed seed 42 (`random_state=42`), so two runs on the
same corpus with the same `num_topics` and `top_words` produce identical
topic-term lists. -/
theorem C6_determinism
    (f g : ℕ → ℕ → List (List ℕ) → List (List ℚ))
    (messages : List JVal) (num_topics top_words : ℕ)
    (h : ∀ matrix, f 42 num_topics matrix = g 42 num_topics matrix) :
    topic_modeling_analysis f messages num_topics top_words =
      topic_modeling_analysis g messages num_topics top_words := by
  unfold topic_modeling_analysis
  simp only [h]

/-- Witness for C1 at a concrete export exercising every skip path. -/
theorem C1_witness :
    convW.all wfConversation = true ∧
    extract_user_messages convW = .ok (extractSpec convW) :=
  ⟨by decide, C1_extraction (by decide)⟩

/-- C2: without filtering, `common_words_analysis` returns (token, count)
pairs sorted by descending count, each pair reporting the exact number of
occurrences of a token of the input, every returned count at least every
count dropped by the `top_n` cut; on `["cat dog", "cat cat"]` with
`top_n = 2` it returns `[("cat", 3), ("dog", 1)]`, and ties keep
first-encounter order (`[("b", 2), ("a", 2)]` for `["b a", "a b"]`). -/
theorem C2_frequency_ranking :
    (∀ (messages : List JVal) (top_n : ℕ),
      List.Sorted cntGe (common_words_analysis messages top_n false).common_words ∧
      (∀ p ∈ (common_words_analysis messages top_n false).common_words,
        p.2 = ((strMessages messages).flatMap pySplit).count p.1 ∧
          p.1 ∈ (strMessages messages).flatMap pySplit) ∧
      (∀ p ∈ (common_words_analysis messages top_n false).common_words,
        ∀ q ∈ (List.insertionSort cntGe
          (counterItems ((strMessages messages).flatMap pySplit))).drop top_n,
          q.2 ≤ p.2)) ∧
    (common_words_analysis [.str "cat dog", .str "cat cat"] 2 false).common_words
      = [("cat", 3), ("dog", 1)] ∧
    (common_words_analysis [.str "b a", .str "a b"] 2 false).common_words
      = [("b", 2), ("a", 2)] := by
  refine ⟨fun messages top_n => ⟨?_, ?_, ?_⟩, by decide, by decide⟩
  · exact most_common_sorted _ _
  · intro p hp
    exact mem_counterItems_count (mem_most_common hp)
  · intro p hp q hq
    exact most_common_top _ _ hp hq

/-- Witness for C2: the returned pair ("cat", 3) reports the exact count
of "cat" among the split words of the example input. -/
theorem C2_witness :
    (("cat", 3) : String × ℕ).2 =
      ((strMessages [JVal.str "cat dog", JVal.str "cat cat"]).flatMap pySplit).count
        (("cat", 3) : String × ℕ).1 ∧
    (("cat", 3) : String × ℕ).1
      ∈ (strMessages [JVal.str "cat dog", JVal.str "cat cat"]).flatMap pySplit :=
  (C2_frequency_ranking.1 [JVal.str "cat dog", JVal.str "cat cat"] 2).2.1
    ("cat", 3) (by decide)

/-- C3: whenever `question_rephrasing_analysis` succeeds, its result is
exactly the row-major list of pairs (i, j), i < j, of interrogative
utterances whose real-number count-vector cosine similarity strictly
exceeds the threshold, truncated to the first 5 pairs, and so never holds
more than 5 pairs. -/
theorem C3_similarity_pairs (messages : List JVal) (t : ℚ)
    (r : SimilarQuestionsResult)
    (h : question_rephrasing_analysis messages t = .ok r) :
    r.similar_questions = (simPairsSpec (questionsOf messages) t).take 5 ∧
    r.similar_questions.length ≤ 5 := by
  have h1 := question_rephrasing_ok h
  constructor
  · exact h1
  · rw [h1]
    exact List.length_take_le 5 _

/-- Witness for C3 at two questions with permuted tokens and threshold 0. -/
theorem C3_witness :
    question_rephrasing_analysis [JVal.str "cat dog?", JVal.str "dog cat?"] 0
      = .ok ⟨[("cat dog?", "dog cat?")]⟩ ∧
    ([("cat dog?", "dog cat?")] : List (String × String))
      = (simPairsSpec (questionsOf [JVal.str "cat dog?", JVal.str "dog cat?"]) 0).take 5 ∧
    ([("cat dog?", "dog cat?")] : List (String × String)).length ≤ 5 :=
  ⟨rfl, (C3_similarity_pairs [JVal.str "cat dog?", JVal.str "dog cat?"] 0
      ⟨[("cat dog?", "dog cat?")]⟩ rfl).1,
    (C3_similarity_pairs [JVal.str "cat dog?", JVal.str "dog cat?"] 0
      ⟨[("cat dog?", "dog cat?")]⟩ rfl).2⟩

/-- Witness for C4 (amended) at "cat dog?" / "dog cat?" with threshold 0. -/
theorem C4_witness :
    endsInQuestionMark "cat dog?" = true ∧
    endsInQuestionMark "dog cat?" = true ∧
    (cvTokenize "cat dog?").Perm (cvTokenize "dog cat?") ∧
    cvTokenize "cat dog?" ≠ [] ∧
    (cosSim (countRow (cvVocab ["cat dog?", "dog cat?"]) "cat dog?")
        (countRow (cvVocab ["cat dog?", "dog cat?"]) "dog cat?") = 1 ∧
      ((0 : ℚ) < 1 →
        question_rephrasing_analysis [.str "cat dog?", .str "dog cat?"] 0
          = .ok ⟨[("cat dog?", "dog cat?")]⟩) ∧
      question_rephrasing_analysis [.str "cat dog?", .str "dog cat?"] 1
        = .ok ⟨[]⟩) :=
  ⟨by decide, by decide, by decide, by decide,
    C4_boundary_amended "cat dog?" "dog cat?" 0
      (by decide) (by decide) (by decide) (by decide)⟩

/-- Counterexample for C4 as stated: "cat cat dog?" and "cat dog dog?"
have identical token SETS, yet their cosine similarity is 4/5, not 1.0,
and the pair is not emitted at the threshold 9/10 < 1. -/
theorem C4_counterexample :
    (cvTokenize "cat cat dog?").all (fun w => w ∈ cvTokenize "cat dog dog?") = true ∧
    (cvTokenize "cat dog dog?").all (fun w => w ∈ cvTokenize "cat cat dog?") = true ∧
    cosSim (countRow (cvVocab ["cat cat dog?", "cat dog dog?"]) "cat cat dog?")
      (countRow (cvVocab ["cat cat dog?", "cat dog dog?"]) "cat dog dog?") = 4 / 5 ∧
    (4 / 5 : ℝ) ≠ 1 ∧
    nineTenths < 1 ∧
    question_rephrasing_analysis [.str "cat cat dog?", .str "cat dog dog?"] nineTenths
      = .ok ⟨[]⟩ := by
  have hr1 : countRow (cvVocab ["cat cat dog?", "cat dog dog?"]) "cat cat dog?"
      = [2, 1] := by decide
  have hr2 : countRow (cvVocab ["cat cat dog?", "cat dog dog?"]) "cat dog dog?"
      = [1, 2] := by decide
  refine ⟨by decide, by decide, ?_, by norm_num, by decide, rfl⟩
  rw [hr1, hr2]
  unfold cosSim
  rw [show dotNat [2, 1] [1, 2] = 4 from rfl, show dotNat [2, 1] [2, 1] = 5 from rfl,
    show dotNat [1, 2] [1, 2] = 5 from rfl]
  push_cast
  rw [Real.mul_self_sqrt (by norm_num : (0 : ℝ) ≤ 5)]

/-- Witness for C5 (amended) at a single interrogative message. -/
theorem C5_witness :
    questionsOf [JVal.str "hello there?"] = ["hello there?"] ∧
    cvVocab ["hello there?"] ≠ [] ∧
    question_rephrasing_analysis [JVal.str "hello there?"] 0 = .ok ⟨[]⟩ :=
  ⟨by decide, by decide,
    @C5_empty_amended [JVal.str "hello there?"] "hello there?" 0 (by decide) (by decide)⟩

/-- Counterexample for C5 as stated: with zero interrogative utterances
the detector raises the vectorizer's empty-vocabulary error instead of
returning an empty result. -/
theorem C5_counterexample :
    questionsOf ([] : List JVal) = [] ∧
    question_rephrasing_analysis [] (1 / 2) = .error "ValueError: empty vocabulary" :=
  ⟨rfl, rfl⟩

/-- Witness for C6 at a concrete corpus and inference function. -/
theorem C6_witness :
    topic_modeling_analysis constLda [JVal.str "aa bb"] 1 2 =
      topic_modeling_analysis constLda [JVal.str "aa bb"] 1 2 :=
  C6_determinism constLda constLda [JVal.str "aa bb"] 1 2 (fun _ => rfl)

/-- Witness for C7 (amended) at a one-topic, two-term corpus with
exactly tied weights. -/
theorem C7_witness :
    tfidfVocab (strMessages [JVal.str "aa bb"]) ≠ [] ∧
    (constLda 42 1 ((strMessages [JVal.str "aa bb"]).map
      (countRow (tfidfVocab (strMessages [JVal.str "aa bb"]))))).length = 1 ∧
    (topic_modeling_analysis constLda [JVal.str "aa bb"] 1 2 =
      .ok ((constLda 42 1 ((strMessages [JVal.str "aa bb"]).map
        (countRow (tfidfVocab (strMessages [JVal.str "aa bb"]))))).enum.map (fun p =>
          ("Topic " ++ Nat.repr p.1,
            topTermsList (tfidfVocab (strMessages [JVal.str "aa bb"])) p.2 2)))) ∧
    ((constLda 42 1 ((strMessages [JVal.str "aa bb"]).map
        (countRow (tfidfVocab (strMessages [JVal.str "aa bb"]))))).enum.map (fun p =>
          ("Topic " ++ Nat.repr p.1,
            topTermsList (tfidfVocab (strMessages [JVal.str "aa bb"])) p.2 2))).length
      = 1 ∧
    (∃ sel : List ℕ,
      topTermsList (tfidfVocab (strMessages [JVal.str "aa bb"])) [(1 : ℚ), 1] 2
        = sel.map (fun i => (tfidfVocab (strMessages [JVal.str "aa bb"])).getD i "") ∧
      sel.length = min 2 ([(1 : ℚ), 1] : List ℚ).length ∧
      sel.Nodup ∧
      (∀ i ∈ sel, i < ([(1 : ℚ), 1] : List ℚ).length) ∧
      List.Sorted (fun i j =>
        ([(1 : ℚ), 1] : List ℚ).getD j 0 ≤ ([(1 : ℚ), 1] : List ℚ).getD i 0) sel ∧
      (∀ i ∈ sel, ∀ j < ([(1 : ℚ), 1] : List ℚ).length, j ∉ sel →
        ([(1 : ℚ), 1] : List ℚ).getD j 0 ≤ ([(1 : ℚ), 1] : List ℚ).getD i 0)) :=
  ⟨by decide, rfl,
    (C7_topics_amended constLda [JVal.str "aa bb"] 1 2 (by decide) rfl).1,
    (C7_topics_amended constLda [JVal.str "aa bb"] 1 2 (by decide) rfl).2.1,
    (C7_topics_amended constLda [JVal.str "aa bb"] 1 2 (by decide) rfl).2.2
      [(1 : ℚ), 1] 2⟩

/-- Counterexample for C7 as stated: with two exactly tied term weights
over the vocabulary ["aa", "bb"], the code emits ["bb", "aa"] — ties in
DESCENDING vocabulary index order — while the claim's «ties broken by
vocabulary index order» selection would emit ["aa", "bb"]. -/
theorem C7_counterexample :
    topic_modeling_analysis constLda [JVal.str "aa bb"] 1 2
      = .ok [("Topic 0", ["bb", "aa"])] ∧
    topTermsClaim (tfidfVocab (strMessages [JVal.str "aa bb"])) [1, 1] 2
      = ["aa", "bb"] ∧
    (["bb", "aa"] : List String) ≠ ["aa", "bb"] :=
  ⟨rfl, by decide, by decide⟩

/-- C8: with `filter_english` enabled every counted token is some input
word stripped to its alphabetic characters and lowercased, kept only when
longer than one character and outside the fixed 100-word stoplist; in
particular "the" is absent from the counts for ["the cat the dog"]. -/
theorem C8_filtering :
    (∀ (messages : List JVal) (top_n : ℕ),
      ∀ p ∈ (common_words_analysis messages top_n true).common_words,
        (∃ w ∈ (strMessages messages).flatMap pySplit, p.1 = cleanWord w) ∧
        1 < p.1.length ∧ ¬ p.1 ∈ top_english_words) ∧
    (common_words_analysis [.str "the cat the dog"] 20 true).common_words
      = [("cat", 1), ("dog", 1)] ∧
    ¬ "the" ∈ ((common_words_analysis [.str "the cat the dog"] 20 true).common_words.map
      Prod.fst) := by
  refine ⟨?_, by decide, by decide⟩
  intro messages top_n p hp
  have h2 := mem_counterItems_count (mem_most_common hp)
  exact mem_clean_and_filter h2.2

/-- Witness for C8: the counted token "cat" arises by cleaning a word of
the input, is longer than one character, and is not a stop word. -/
theorem C8_witness :
    (∃ w ∈ (strMessages [JVal.str "the cat the dog"]).flatMap pySplit,
      (("cat", 1) : String × ℕ).1 = cleanWord w) ∧
    1 < (("cat", 1) : String × ℕ).1.length ∧
    ¬ (("cat", 1) : String × ℕ).1 ∈ top_english_words :=
  C8_filtering.1 [JVal.str "the cat the dog"] 20 ("cat", 1) (by decide)

/-- C9: the two historical entry points are NOT equivalent when
`filter_english` is false — `parse.py` lowercases before counting while
`parse3.py` does not — so on the uppercase input ["Cat cat"] they return
different frequency lists, establishing the claim's second disjunct. -/
theorem C9_variants_divergence :
    common_words_analysis_py [JVal.str "Cat cat"] 20 false = [("cat", 2)] ∧
    (common_words_analysis [JVal.str "Cat cat"] 20 false).common_words
      = [("Cat", 1), ("cat", 1)] ∧
    ([("cat", 2)] : List (String × ℕ)) ≠ [("Cat", 1), ("cat", 1)] :=
  ⟨by decide, by decide, by decide⟩

/-- C10: the extractor does not enforce string utterances — on `convNum`
it returns the numeric first part unchanged — and each downstream
analysis is invariant under deleting the non-string entries, because each
filters them out with an `isinstance(·, str)` check before doing any
work. -/
theorem C10_nonstring_flow :
    extract_user_messages convNum = .ok [.num 5] ∧
    (∀ (messages : List JVal) (top_n : ℕ) (filter_english : Bool),
      common_words_analysis (messages.filter (fun v => v.isStr)) top_n filter_english
        = common_words_analysis messages top_n filter_english) ∧
    (∀ (ldaFit : ℕ → ℕ → List (List ℕ) → List (List ℚ)) (messages : List JVal)
      (num_topics top_words : ℕ),
      topic_modeling_analysis ldaFit (messages.filter (fun v => v.isStr))
          num_topics top_words
        = topic_modeling_analysis ldaFit messages num_topics top_words) ∧
    (∀ (messages : List JVal) (t : ℚ),
      question_rephrasing_analysis (messages.filter (fun v => v.isStr)) t
        = question_rephrasing_analysis messages t) := by
  refine ⟨rfl, ?_, ?_, ?_⟩
  · intro messages top_n filter_english
    unfold common_words_analysis
    rw [strMessages_filter]
  · intro ldaFit messages num_topics top_words
    unfold topic_modeling_analysis
    rw [strMessages_filter]
  · intro messages t
    unfold question_rephrasing_analysis
    rw [questionsOf_filter]
